import Mathlib

/-!
Verification of the table-catalog / dependency-resolver / backend-emitter core
of the orm-setup code generator.

The definitions in the first part of this file are a shallow embedding of the
TypeScript sources:

* `src/templates/table-definitions.ts` — the data model (`Field`,
  `TableDefinition`), the nine catalog tables, `allTables`, `getTableByName`
  and the dependency resolver `getTablesWithDependencies`.  The resolver's
  recursion is modelled with an explicit fuel parameter: a result of `none`
  means the recursion did not complete within the given depth, and
  `∀ fuel, … = none` means the JavaScript original recurses forever.
* `src/generators/table-generators.ts` — the Drizzle, Prisma and Kysely
  emitters (string builders, reproduced chunk by chunk).
* `src/generators/templates.ts` — the starter-schema template `generateSchema`.

Braces and apostrophes occurring inside emitted source text are written with
the escapes `\x7b`, `\x7d` and `\x27`; the resulting strings are identical to
the TypeScript template literals.
-/

namespace OrmSetup

/-- `Field.type` in table-definitions.ts:
`"string" | "number" | "boolean" | "date" | "uuid" | "text" | "json"`. -/
inductive FieldType where
  | string
  | number
  | boolean
  | date
  | uuid
  | text
  | json
deriving DecidableEq

/-- `onDelete` of a `references` entry: `"cascade" | "set null" | "restrict"`. -/
inductive OnDelete where
  | cascade
  | setNull
  | restrict
deriving DecidableEq

/-- The `references` member of a field:
`{ table: string; field: string; onDelete?: … }`. -/
structure Reference where
  table : String
  field : String
  onDelete : Option OnDelete := none
deriving DecidableEq

/-- A `default` value: JS `string | number | boolean` (the string `"now"` is
the reserved current-timestamp token). -/
inductive DefaultValue where
  | str (s : String)
  | num (n : Int)
  | boolean (b : Bool)
deriving DecidableEq

/-- `Field` of table-definitions.ts.  Optional booleans default to `false`
(JS truthiness of `undefined`); `length`, `default` and `references` are
genuinely optional. -/
structure Field where
  name : String
  type : FieldType
  required : Bool := false
  unique : Bool := false
  default : Option DefaultValue := none
  isPrimaryKey : Bool := false
  isAutoIncrement : Bool := false
  length : Option Nat := none
  references : Option Reference := none
deriving DecidableEq

/-- One `relations` entry:
`type: "one-to-many" | "many-to-one" | "many-to-many"`. -/
inductive RelKind where
  | oneToMany
  | manyToOne
  | manyToMany
deriving DecidableEq

/-- A `relations` array element of a `TableDefinition`. -/
structure RelationEntry where
  type : RelKind
  toTable : String
  fieldName : String
deriving DecidableEq

/-- `TableDefinition` of table-definitions.ts. -/
structure TableDefinition where
  name : String
  displayName : String
  fields : List Field
  relations : List RelationEntry := []
deriving DecidableEq

/-- `userTable` (table-definitions.ts). -/
def userTable : TableDefinition where
  name := "users"
  displayName := "User"
  fields := [
    { name := "id", type := .uuid, isPrimaryKey := true },
    { name := "email", type := .string, required := true, unique := true,
      length := some 255 },
    { name := "name", type := .string, length := some 255 },
    { name := "emailVerified", type := .date },
    { name := "image", type := .string, length := some 500 },
    { name := "createdAt", type := .date, default := some (.str "now") },
    { name := "updatedAt", type := .date, default := some (.str "now") }]

/-- `postTable` (table-definitions.ts). -/
def postTable : TableDefinition where
  name := "posts"
  displayName := "Post"
  fields := [
    { name := "id", type := .uuid, isPrimaryKey := true },
    { name := "title", type := .string, required := true, length := some 255 },
    { name := "slug", type := .string, required := true, unique := true,
      length := some 255 },
    { name := "content", type := .text },
    { name := "excerpt", type := .string, length := some 500 },
    { name := "published", type := .boolean, default := some (.boolean false) },
    { name := "publishedAt", type := .date },
    { name := "authorId", type := .uuid, required := true,
      references := some { table := "users", field := "id",
                           onDelete := some .cascade } },
    { name := "createdAt", type := .date, default := some (.str "now") },
    { name := "updatedAt", type := .date, default := some (.str "now") }]
  relations := [
    { type := .manyToOne, toTable := "users", fieldName := "author" },
    { type := .oneToMany, toTable := "comments", fieldName := "comments" }]

/-- `commentTable` (table-definitions.ts); `parentId` is a self-referential
foreign key back to `comments`. -/
def commentTable : TableDefinition where
  name := "comments"
  displayName := "Comment"
  fields := [
    { name := "id", type := .uuid, isPrimaryKey := true },
    { name := "content", type := .text, required := true },
    { name := "postId", type := .uuid, required := true,
      references := some { table := "posts", field := "id",
                           onDelete := some .cascade } },
    { name := "authorId", type := .uuid, required := true,
      references := some { table := "users", field := "id",
                           onDelete := some .cascade } },
    { name := "parentId", type := .uuid,
      references := some { table := "comments", field := "id",
                           onDelete := some .cascade } },
    { name := "createdAt", type := .date, default := some (.str "now") },
    { name := "updatedAt", type := .date, default := some (.str "now") }]

/-- `categoryTable` (table-definitions.ts). -/
def categoryTable : TableDefinition where
  name := "categories"
  displayName := "Category"
  fields := [
    { name := "id", type := .uuid, isPrimaryKey := true },
    { name := "name", type := .string, required := true, unique := true,
      length := some 100 },
    { name := "slug", type := .string, required := true, unique := true,
      length := some 100 },
    { name := "description", type := .text },
    { name := "createdAt", type := .date, default := some (.str "now") }]

/-- `tagTable` (table-definitions.ts). -/
def tagTable : TableDefinition where
  name := "tags"
  displayName := "Tag"
  fields := [
    { name := "id", type := .uuid, isPrimaryKey := true },
    { name := "name", type := .string, required := true, unique := true,
      length := some 50 },
    { name := "slug", type := .string, required := true, unique := true,
      length := some 50 },
    { name := "createdAt", type := .date, default := some (.str "now") }]

/-- `productTable` (table-definitions.ts). -/
def productTable : TableDefinition where
  name := "products"
  displayName := "Product"
  fields := [
    { name := "id", type := .uuid, isPrimaryKey := true },
    { name := "name", type := .string, required := true, length := some 255 },
    { name := "slug", type := .string, required := true, unique := true,
      length := some 255 },
    { name := "description", type := .text },
    { name := "price", type := .number, required := true },
    { name := "compareAtPrice", type := .number },
    { name := "inventory", type := .number, default := some (.num 0) },
    { name := "images", type := .json },
    { name := "published", type := .boolean, default := some (.boolean false) },
    { name := "createdAt", type := .date, default := some (.str "now") },
    { name := "updatedAt", type := .date, default := some (.str "now") }]

/-- `orderTable` (table-definitions.ts). -/
def orderTable : TableDefinition where
  name := "orders"
  displayName := "Order"
  fields := [
    { name := "id", type := .uuid, isPrimaryKey := true },
    { name := "orderNumber", type := .string, required := true, unique := true,
      length := some 20 },
    { name := "userId", type := .uuid, required := true,
      references := some { table := "users", field := "id" } },
    { name := "status", type := .string, required := true,
      default := some (.str "pending"), length := some 50 },
    { name := "total", type := .number, required := true },
    { name := "subtotal", type := .number, required := true },
    { name := "tax", type := .number, default := some (.num 0) },
    { name := "shipping", type := .number, default := some (.num 0) },
    { name := "shippingAddress", type := .json },
    { name := "createdAt", type := .date, default := some (.str "now") },
    { name := "updatedAt", type := .date, default := some (.str "now") }]

/-- `organizationTable` (table-definitions.ts). -/
def organizationTable : TableDefinition where
  name := "organizations"
  displayName := "Organization"
  fields := [
    { name := "id", type := .uuid, isPrimaryKey := true },
    { name := "name", type := .string, required := true, length := some 255 },
    { name := "slug", type := .string, required := true, unique := true,
      length := some 255 },
    { name := "logo", type := .string, length := some 500 },
    { name := "plan", type := .string, default := some (.str "free"),
      length := some 50 },
    { name := "createdAt", type := .date, default := some (.str "now") },
    { name := "updatedAt", type := .date, default := some (.str "now") }]

/-- `subscriptionTable` (table-definitions.ts). -/
def subscriptionTable : TableDefinition where
  name := "subscriptions"
  displayName := "Subscription"
  fields := [
    { name := "id", type := .uuid, isPrimaryKey := true },
    { name := "organizationId", type := .uuid, required := true,
      references := some { table := "organizations", field := "id",
                           onDelete := some .cascade } },
    { name := "plan", type := .string, required := true, length := some 50 },
    { name := "status", type := .string, required := true,
      default := some (.str "active"), length := some 50 },
    { name := "currentPeriodStart", type := .date, required := true },
    { name := "currentPeriodEnd", type := .date, required := true },
    { name := "cancelAtPeriodEnd", type := .boolean,
      default := some (.boolean false) },
    { name := "stripeSubscriptionId", type := .string, unique := true,
      length := some 255 },
    { name := "createdAt", type := .date, default := some (.str "now") },
    { name := "updatedAt", type := .date, default := some (.str "now") }]

/-- `allTables` (table-definitions.ts). -/
def allTables : List TableDefinition :=
  [userTable, postTable, commentTable, categoryTable, tagTable, productTable,
   orderTable, organizationTable, subscriptionTable]

/-- `getTableByName`: `allTables.find((t) => t.name === name)`. -/
def getTableByName (name : String) : Option TableDefinition :=
  allTables.find? (fun t => t.name == name)

/-- The two mutable locals of `getTablesWithDependencies`:
`result: TableDefinition[]` and `added: Set<string>` (represented as the list
of its elements). -/
structure ResolveState where
  result : List TableDefinition
  added : List String
deriving DecidableEq

/-- JS `Set.add`: insert at the end if not already present. -/
def setAdd (l : List String) (x : String) : List String :=
  if x ∈ l then l else l ++ [x]

/-- The `table.fields.forEach` loop body of `addTable`:
`if (field.references && !added.has(field.references.table))
   addTable(field.references.table)`, threading the mutated state.
`add1` is the recursive `addTable` at the remaining recursion depth. -/
def goFields (add1 : ResolveState → String → Option ResolveState) :
    List Field → ResolveState → Option ResolveState
  | [], st => some st
  | f :: fs, st =>
    match f.references with
    | none => goFields add1 fs st
    | some r =>
      if r.table ∈ st.added then goFields add1 fs st
      else
        match add1 st r.table with
        | none => none
        | some st2 => goFields add1 fs st2

/-- The inner recursive `addTable` of `getTablesWithDependencies`, with an
explicit bound `fuel` on the recursion depth (`none` = depth exhausted):

```
function addTable(name) {
  if (added.has(name)) return;
  const table = getTableByName(name);
  if (!table) return;
  table.fields.forEach((field) => {
    if (field.references && !added.has(field.references.table))
      addTable(field.references.table);
  });
  result.push(table);
  added.add(name);
}
```
-/
def addTable : Nat → ResolveState → String → Option ResolveState
  | 0, _, _ => none
  | fuel + 1, st, name =>
    if name ∈ st.added then some st
    else
      match getTableByName name with
      | none => some st
      | some table =>
        match goFields (addTable fuel) table.fields st with
        | none => none
        | some st2 => some ⟨st2.result ++ [table], setAdd st2.added name⟩

/-- `getTablesWithDependencies(tableNames)`: run `addTable` over the requested
names and return the accumulated `result`.  `none` means the bounded recursion
ran out of depth at some call. -/
def getTablesWithDependencies (fuel : Nat) (tableNames : List String) :
    Option (List TableDefinition) :=
  (tableNames.foldlM (fun st n => addTable fuel st n)
    (ResolveState.mk [] [])).map ResolveState.result

/-- The storage names of a table sequence, in order. -/
def names (l : List TableDefinition) : List String :=
  l.map TableDefinition.name

/-- The foreign-key target names appearing on a table's fields. -/
def refTargets (t : TableDefinition) : List String :=
  t.fields.filterMap (fun f => f.references.map Reference.table)

/-- Foreign-key edge of the catalog's dependency graph: `a` is a catalog
table one of whose fields references `b`. -/
def edge (a b : String) : Prop :=
  ∃ t, getTableByName a = some t ∧ b ∈ refTargets t

/-- Transitive-reflexive reachability along foreign-key edges. -/
def Reach : String → String → Prop :=
  Relation.ReflTransGen edge

/-- `type Database = "postgresql" | "mysql" | "sqlite"`. -/
inductive Database where
  | postgresql
  | mysql
  | sqlite
deriving DecidableEq

/-- The `dbImport` selector of `generateDrizzleTables` (and `generateSchema`). -/
def dbImport : Database → String
  | .postgresql => "pg-core"
  | .mysql => "mysql-core"
  | .sqlite => "sqlite-core"

/-- The `tableFunc` selector of `generateDrizzleTables` (and `generateSchema`). -/
def tableFunc : Database → String
  | .postgresql => "pgTable"
  | .mysql => "mysqlTable"
  | .sqlite => "sqliteTable"

/-- `getDrizzleFieldType` (table-generators.ts): abstract field type to
Drizzle column-builder name.  Note it takes no dialect argument. -/
def getDrizzleFieldType (f : Field) : String :=
  match f.type with
  | .uuid => "text"
  | .string => "text"
  | .text => "text"
  | .number => "integer"
  | .boolean => "boolean"
  | .date => "timestamp"
  | .json => "json"

/-- `getDrizzleFieldType(field).split("(")[0]` — the "base type" recorded in
the import set. -/
def drizzleBaseType (f : Field) : String :=
  ((getDrizzleFieldType f).splitOn ("(")).headD ""

/-- The import-set accumulation of `generateDrizzleTables`: a
`Set<string>` seeded with `["text", "timestamp"]`, then every field's base
type is added (JS `Set` keeps insertion order). -/
def drizzleImportTypes (tables : List TableDefinition) : List String :=
  tables.foldl
    (fun s t => t.fields.foldl (fun s f => setAdd s (drizzleBaseType f)) s)
    ["text", "timestamp"]

/-- The import header line of `generateDrizzleTables`:
``import { ${tableFunc}, ${Array.from(fieldTypes).join(", ")} } from 'drizzle-orm/${dbImport}'``. -/
def drizzleImportLine (tables : List TableDefinition) (db : Database) : String :=
  "import \x7b " ++ tableFunc db ++ ", " ++
    String.intercalate ", " (drizzleImportTypes tables) ++
    " \x7d from \x27drizzle-orm/" ++ dbImport db ++ "\x27"

/-- `onDelete` rendered as its JS string literal. -/
def onDeleteStr : OnDelete → String
  | .cascade => "cascade"
  | .setNull => "set null"
  | .restrict => "restrict"

/-- The base chunk of `generateDrizzleField`:
`type('${name}'` then, under JS truthiness of `field.length`,
`, { length: ${n} }`, then `)`. -/
def drizzleBasePart (f : Field) : String :=
  getDrizzleFieldType f ++ "(\x27" ++ f.name ++ "\x27" ++
    (match f.length with
     | none => ""
     | some n => if n = 0 then "" else ", \x7b length: " ++ toString n ++ " \x7d") ++
    ")"

/-- `.primaryKey()` chunk: appended when `field.isPrimaryKey`. -/
def drizzlePkPart (f : Field) : String :=
  if f.isPrimaryKey then ".primaryKey()" else ""

/-- `.notNull()` chunk: appended when `field.required && !field.isPrimaryKey`. -/
def drizzleNotNullPart (f : Field) : String :=
  if f.required ∧ ¬f.isPrimaryKey then ".notNull()" else ""

/-- `.unique()` chunk: appended when `field.unique`. -/
def drizzleUniquePart (f : Field) : String :=
  if f.unique then ".unique()" else ""

/-- Default-value chunk: `.defaultNow()` for the `"now"` token, quoted literal
for other strings, bare literal otherwise. -/
def drizzleDefaultPart (f : Field) : String :=
  match f.default with
  | none => ""
  | some (.str s) =>
      if s = "now" then ".defaultNow()"
      else ".default(\x27" ++ s ++ "\x27)"
  | some (.num n) => ".default(" ++ toString n ++ ")"
  | some (.boolean b) => ".default(" ++ (if b then "true" else "false") ++ ")"

/-- `.$defaultFn(() => crypto.randomUUID())` chunk: appended when
`field.isPrimaryKey && field.type === "uuid"`. -/
def drizzlePkUuidPart (f : Field) : String :=
  if f.isPrimaryKey ∧ f.type = .uuid then
    ".$defaultFn(() => crypto.randomUUID())"
  else ""

/-- Foreign-key chunk:
`.references(() => target.field, { onDelete: '…' })`. -/
def drizzleRefPart (f : Field) : String :=
  match f.references with
  | none => ""
  | some r =>
      ".references(() => " ++ r.table ++ "." ++ r.field ++
        (match r.onDelete with
         | none => ""
         | some od => ", \x7b onDelete: \x27" ++ onDeleteStr od ++ "\x27 \x7d") ++
        ")"

/-- `generateDrizzleField` (table-generators.ts): sequential concatenation of
the chunks above, in source order.  The `database` parameter is unused in the
source and here. -/
def generateDrizzleField (f : Field) (database : Database) : String :=
  drizzleBasePart f ++ drizzlePkPart f ++ drizzleNotNullPart f ++
    drizzleUniquePart f ++ drizzleDefaultPart f ++ drizzlePkUuidPart f ++
    drizzleRefPart f

/-- One table block of `generateDrizzleTables`:
``export const ${name} = ${tableFunc}('${name}', {\n${fields}\n})``. -/
def drizzleTableBlock (db : Database) (t : TableDefinition) : String :=
  "export const " ++ t.name ++ " = " ++ tableFunc db ++ "(\x27" ++ t.name ++
    "\x27, \x7b\n" ++
    String.intercalate "\n"
      (t.fields.map (fun f => "  " ++ f.name ++ ": " ++
        generateDrizzleField f db ++ ",")) ++
    "\n\x7d)"

/-- One relation line of the Drizzle relation pass: a `many(...)` line for
one-to-many, a `one(...)` block for many-to-one, and the empty string for
many-to-many (the source's trailing `return ""`). -/
def drizzleRelationLine (table : TableDefinition) (rel : RelationEntry) : String :=
  match rel.type with
  | .oneToMany =>
      "    " ++ rel.fieldName ++ ": many(" ++ rel.toTable ++ "),"
  | .manyToOne =>
      "    " ++ rel.fieldName ++ ": one(" ++ rel.toTable ++ ", \x7b\n" ++
        "      fields: [" ++ table.name ++ "." ++ rel.fieldName ++ "Id],\n" ++
        "      references: [" ++ rel.toTable ++ ".id],\n    \x7d),"
  | .manyToMany => ""

/-- One `…Relations` declaration of the Drizzle relation pass. -/
def drizzleRelationsBlock (t : TableDefinition) : String :=
  "export const " ++ t.name ++ "Relations = relations(" ++ t.name ++
    ", (\x7b one, many \x7d) => (\x7b\n" ++
    String.intercalate "\n" (t.relations.map (drizzleRelationLine t)) ++
    "\n\x7d))"

/-- `generateDrizzleTables` (table-generators.ts): import header, table
blocks, then — if some table has relations — the relation pass. -/
def generateDrizzleTables (tables : List TableDefinition) (db : Database) :
    String :=
  drizzleImportLine tables db ++ "\n\n" ++
    String.intercalate "\n\n" (tables.map (drizzleTableBlock db)) ++
    (if tables.any (fun t => !t.relations.isEmpty) then
      "\n\nimport \x7b relations \x7d from \x27drizzle-orm\x27\n\n" ++
        String.intercalate "\n\n"
          ((tables.filter (fun t => !t.relations.isEmpty)).map
            drizzleRelationsBlock)
     else "")

/-- `capitalize` (table-generators.ts):
`str.charAt(0).toUpperCase() + str.slice(1)`. -/
def capitalize (s : String) : String :=
  s.capitalize

/-- `getPrismaType` (table-generators.ts). -/
def getPrismaType (f : Field) : String :=
  match f.type with
  | .uuid => "String"
  | .string => "String"
  | .text => "String"
  | .number => "Int"
  | .boolean => "Boolean"
  | .date => "DateTime"
  | .json => "Json"

/-- The Prisma optionality marker: `?` appended when
`!field.required && !field.isPrimaryKey`. -/
def prismaOptionalMark (f : Field) : String :=
  if ¬f.required ∧ ¬f.isPrimaryKey then "?" else ""

/-- The `attrs` array of `generatePrismaField`, in push order. -/
def prismaAttrs (f : Field) : List String :=
  (if f.isPrimaryKey then
     [if f.type = .uuid then "@id @default(uuid())"
      else if f.isAutoIncrement then "@id @default(autoincrement())"
      else "@id"]
   else []) ++
  (if f.unique ∧ ¬f.isPrimaryKey then ["@unique"] else []) ++
  (match f.default with
   | none => []
   | some d =>
       if f.isPrimaryKey then []
       else
         [match d with
          | .str s => if s = "now" then "@default(now())"
                      else "@default(\x22" ++ s ++ "\x22)"
          | .boolean b => "@default(" ++ (if b then "true" else "false") ++ ")"
          | .num n => "@default(" ++ toString n ++ ")"]) ++
  (match f.references with
   | none => []
   | some r =>
       ["@relation(fields: [" ++ f.name ++ "], references: [" ++ r.field ++ "]"]
         ++ (match r.onDelete with
             | none => []
             | some od => [", onDelete: " ++ capitalize (onDeleteStr od)]) ++
         [")"])

/-- `generatePrismaField` (table-generators.ts): name, two spaces, type,
optionality marker, then the attributes joined with single spaces. -/
def generatePrismaField (f : Field) : String :=
  f.name ++ "  " ++ getPrismaType f ++ prismaOptionalMark f ++
    (if prismaAttrs f = [] then ""
     else " " ++ String.intercalate " " (prismaAttrs f))

/-- `getKyselyType` (table-generators.ts). -/
def getKyselyType (f : Field) : String :=
  match f.type with
  | .uuid => "string"
  | .string => "string"
  | .text => "string"
  | .number => "number"
  | .boolean => "boolean"
  | .date => "Date"
  | .json => "unknown"

/-- The Kysely `Generated<…>` wrapper, applied when
`field.isPrimaryKey && field.isAutoIncrement`. -/
def kyselyGeneratedWrap (f : Field) (ty : String) : String :=
  if f.isPrimaryKey ∧ f.isAutoIncrement then "Generated<" ++ ty ++ ">" else ty

/-- The Kysely nullability suffix: `" | null"` appended when
`!field.required && !field.isPrimaryKey`. -/
def kyselyNullMark (f : Field) : String :=
  if ¬f.required ∧ ¬f.isPrimaryKey then " | null" else ""

/-- The full Kysely type of one field. -/
def kyselyFieldType (f : Field) : String :=
  kyselyGeneratedWrap f (getKyselyType f) ++ kyselyNullMark f

/-- One interface member line: `  ${field.name}: ${type}`. -/
def kyselyFieldLine (f : Field) : String :=
  "  " ++ f.name ++ ": " ++ kyselyFieldType f

/-- One per-table block of `generateKyselyTables`: the `…Table` interface
followed by the three derived type aliases (`Selectable`, `Insertable`,
`Updateable`). -/
def kyselyTableBlock (t : TableDefinition) : String :=
  let tn := capitalize t.displayName
  "export interface " ++ tn ++ "Table \x7b\n" ++
    String.intercalate "\n" (t.fields.map kyselyFieldLine) ++
    "\n\x7d\n\nexport type " ++ tn ++ " = Selectable<" ++ tn ++
    "Table>\nexport type New" ++ tn ++ " = Insertable<" ++ tn ++
    "Table>\nexport type " ++ tn ++ "Update = Updateable<" ++ tn ++ "Table>"

/-- The trailing `Database` interface of `generateKyselyTables`. -/
def kyselyDbInterface (tables : List TableDefinition) : String :=
  "export interface Database \x7b\n" ++
    String.intercalate "\n"
      (tables.map (fun t => "  " ++ t.name ++ ": " ++
        capitalize t.displayName ++ "Table")) ++
    "\n\x7d"

/-- `generateKyselyTables` (table-generators.ts).  The `database` parameter is
unused in the source and here. -/
def generateKyselyTables (tables : List TableDefinition) (database : Database) :
    String :=
  "import \x7b Generated, Insertable, Selectable, Updateable \x7d from \x27kysely\x27"
    ++ "\n\n" ++ String.intercalate "\n\n" (tables.map kyselyTableBlock) ++
    "\n\n" ++ kyselyDbInterface tables

/-- The `idType` expression of `generateSchema` (templates.ts, lines 42-45):
the starter-schema `users.id` column, auto-increment integer under sqlite and
a random-UUID text column otherwise. -/
def generateSchemaIdType (database : Database) : String :=
  match database with
  | .sqlite => "integer(\x27id\x27).primaryKey(\x7b autoIncrement: true \x7d)"
  | _ => "text(\x27id\x27).primaryKey().$defaultFn(() => crypto.randomUUID())"

/-- `generateSchema` (templates.ts): the starter Drizzle schema template. -/
def generateSchema (database : Database) (includeExamples : Bool) : String :=
  let imports := "import \x7b " ++ tableFunc database ++
    ", text, timestamp, integer \x7d from \x27drizzle-orm/" ++
    dbImport database ++ "\x27"
  if !includeExamples then
    imports ++ "\n\n// Define your schema here\n// Example:\n// export const users = "
      ++ tableFunc database ++ "(\x27users\x27, \x7b\n//   id: integer(\x27id\x27).primaryKey(),\n//   email: text(\x27email\x27).notNull().unique(),\n// \x7d)\n"
  else
    imports ++ "\n\nexport const users = " ++ tableFunc database ++
      "(\x27users\x27, \x7b\n  id: " ++ generateSchemaIdType database ++
      ",\n  email: text(\x27email\x27).notNull().unique(),\n  name: text(\x27name\x27),\n  createdAt: timestamp(\x27created_at\x27).defaultNow().notNull(),\n  updatedAt: timestamp(\x27updated_at\x27).defaultNow().notNull(),\n\x7d)\n"

/-- Number of non-overlapping occurrences of a character pattern in a
character list, structurally bounded by a step counter. -/
def countOccAux (pat : List Char) : Nat → List Char → Nat
  | 0, _ => 0
  | _, [] => 0
  | steps + 1, c :: rest =>
    if pat.isPrefixOf (c :: rest) then
      1 + countOccAux pat steps (rest.drop (pat.length - 1))
    else countOccAux pat steps rest

/-- Number of non-overlapping occurrences of `pat` in `s`. -/
def countOcc (pat s : String) : Nat :=
  countOccAux pat.data s.data.length s.data

/-- Scenario table for the Kysely derived-type claim: one auto-increment
primary key plus two other fields. -/
def itemTable : TableDefinition where
  name := "items"
  displayName := "Item"
  fields := [
    { name := "id", type := .number, isPrimaryKey := true,
      isAutoIncrement := true },
    { name := "title", type := .string, required := true },
    { name := "done", type := .boolean }]

/-- State extension: the visited set grows and the result list is extended on
the right. -/
def Ext (st st' : ResolveState) : Prop :=
  (∀ x ∈ st.added, x ∈ st'.added) ∧ ∃ new, st'.result = st.result ++ new

/-- Dependency ordering of a table sequence, viewed from its right end: each
table's foreign-key targets that exist in the catalog occur among the tables
placed before it. -/
def OrderedRev : List TableDefinition → Prop
  | [] => True
  | t :: rest =>
      (∀ b ∈ refTargets t, (getTableByName b).isSome → b ∈ names rest) ∧
        OrderedRev rest

/-- Invariant of the resolver state, preserved by every terminating
`addTable` call starting from the empty state. -/
structure Inv (st : ResolveState) : Prop where
  corr : ∀ x, x ∈ st.added ↔ x ∈ names st.result
  nodup : (names st.result).Nodup
  lookups : ∀ t ∈ st.result, getTableByName t.name = some t
  closed : ∀ x ∈ st.added, ∀ b, edge x b → b ∈ st.added
  ordered : OrderedRev st.result.reverse
  nocomments : "comments" ∉ st.added

/-- Rank function exhibiting that the catalog's only foreign-key cycle is the
self-loop on `comments`. -/
def rank (n : String) : Nat :=
  if n = "comments" then 2
  else if n = "posts" ∨ n = "orders" ∨ n = "subscriptions" then 1
  else 0

/-! ### Equation and membership lemmas -/

theorem goFields_nil {add1} {st : ResolveState} :
    goFields add1 [] st = some st := rfl

theorem goFields_cons_noref {add1} {f : Field} {fs : List Field}
    {st : ResolveState} (h : f.references = none) :
    goFields add1 (f :: fs) st = goFields add1 fs st := by
  simp [goFields, h]

theorem goFields_cons_ref {add1} {f : Field} {fs : List Field} {r : Reference}
    {st : ResolveState} (h : f.references = some r) :
    goFields add1 (f :: fs) st =
      if r.table ∈ st.added then goFields add1 fs st
      else
        match add1 st r.table with
        | none => none
        | some st2 => goFields add1 fs st2 := by
  simp [goFields, h]

theorem addTable_zero {st : ResolveState} {name : String} :
    addTable 0 st name = none := rfl

theorem addTable_succ {fuel : Nat} {st : ResolveState} {name : String} :
    addTable (fuel + 1) st name =
      if name ∈ st.added then some st
      else
        match getTableByName name with
        | none => some st
        | some table =>
          match goFields (addTable fuel) table.fields st with
          | none => none
          | some st2 => some ⟨st2.result ++ [table], setAdd st2.added name⟩ :=
  rfl

theorem mem_setAdd {l : List String} {x y : String} :
    x ∈ setAdd l y ↔ x = y ∨ x ∈ l := by
  simp only [setAdd]
  split
  · rename_i hy
    constructor
    · exact Or.inr
    · rintro (rfl | hx)
      · exact hy
      · assumption
  · simp [List.mem_append, or_comm]

theorem mem_refTargets {t : TableDefinition} {b : String} :
    b ∈ refTargets t ↔
      ∃ f ∈ t.fields, ∃ r, f.references = some r ∧ r.table = b := by
  simp only [refTargets, List.mem_filterMap]
  constructor
  · rintro ⟨f, hf, hmap⟩
    cases hr : f.references with
    | none => rw [hr] at hmap; simp [Option.map] at hmap
    | some r =>
        rw [hr] at hmap
        simp only [Option.map, Option.some.injEq] at hmap
        exact ⟨f, hf, r, hr, hmap⟩
  · rintro ⟨f, hf, r, hr, rfl⟩
    exact ⟨f, hf, by simp [hr, Option.map]⟩

theorem lookup_mem {a : String} {t : TableDefinition}
    (h : getTableByName a = some t) : t ∈ allTables :=
  List.mem_of_find?_eq_some h

theorem lookup_name {a : String} {t : TableDefinition}
    (h : getTableByName a = some t) : t.name = a := by
  have h' : allTables.find? (fun tb => tb.name == a) = some t := h
  have h2 := List.find?_some h'
  exact eq_of_beq h2

/-! ### Concrete facts about the nine-table catalog -/

set_option maxRecDepth 40000 in
theorem lookup_self : ∀ t ∈ allTables, getTableByName t.name = some t := by
  decide

set_option maxRecDepth 40000 in
theorem targets_known :
    ∀ t ∈ allTables, ∀ b ∈ refTargets t, (getTableByName b).isSome := by
  decide

set_option maxRecDepth 40000 in
theorem no_self_target :
    ∀ t ∈ allTables, t.name ≠ "comments" → t.name ∉ refTargets t := by
  decide

set_option maxRecDepth 40000 in
theorem comments_only_into_comments :
    ∀ t ∈ allTables, "comments" ∈ refTargets t → t.name = "comments" := by
  decide

set_option maxRecDepth 40000 in
theorem catalog_rank :
    ∀ t ∈ allTables, ∀ b ∈ refTargets t,
      rank b < rank t.name ∨ (t.name = "comments" ∧ b = "comments") := by
  decide

/-! ### The dependency graph's only cycle is the self-loop on `comments` -/

theorem edge_rank {a b : String} (h : edge a b) :
    rank b < rank a ∨ (a = "comments" ∧ b = "comments") := by
  obtain ⟨t, hl, hb⟩ := h
  have hm := lookup_mem hl
  have hn := lookup_name hl
  subst hn
  exact catalog_rank t hm b hb

theorem edge_to_comments {a : String} (h : edge a "comments") :
    a = "comments" := by
  obtain ⟨t, hl, hb⟩ := h
  have hm := lookup_mem hl
  have hn := lookup_name hl
  subst hn
  exact comments_only_into_comments t hm hb

theorem reach_comments {a : String} (h : Reach a "comments") :
    a = "comments" := by
  induction h using Relation.ReflTransGen.head_induction_on with
  | refl => rfl
  | head h' _ ih =>
      subst ih
      exact edge_to_comments h'

theorem rank_le_one {a : String} (h : a ≠ "comments") : rank a ≤ 1 := by
  rw [rank, if_neg h]
  split <;> omega

theorem transGen_rank {a b : String} (h : Relation.TransGen edge a b) :
    a ≠ "comments" → rank b < rank a := by
  induction h using Relation.TransGen.head_induction_on with
  | base h' =>
      intro ha
      rcases edge_rank h' with h2 | ⟨h2, _⟩
      · exact h2
      · exact absurd h2 ha
  | ih h' _ ih2 =>
      rename_i c _
      intro ha
      rcases edge_rank h' with h2 | ⟨h2, _⟩
      · by_cases hc : c = "comments"
        · subst hc
          have h3 : rank "comments" = 2 := by simp [rank]
          rw [h3] at h2
          have h4 := rank_le_one ha
          omega
        · exact lt_trans (ih2 hc) h2
      · exact absurd h2 ha

theorem cycle_comments {n : String} (h : Relation.TransGen edge n n) :
    n = "comments" := by
  by_contra hn
  exact absurd (transGen_rank h hn) (lt_irrefl _)

/-! ### Extension and reachability bounds of `addTable` -/

theorem ext_rfl {st : ResolveState} : Ext st st :=
  ⟨fun _ h => h, [], by simp⟩

theorem ext_trans {s1 s2 s3 : ResolveState} (h1 : Ext s1 s2) (h2 : Ext s2 s3) :
    Ext s1 s3 := by
  obtain ⟨ha, n1, hr⟩ := h1
  obtain ⟨hb, n2, hr2⟩ := h2
  exact ⟨fun x hx => hb x (ha x hx), n1 ++ n2,
    by rw [hr2, hr, List.append_assoc]⟩

theorem goFields_ext {add1}
    (H : ∀ st n st', add1 st n = some st' → Ext st st') :
    ∀ (fs : List Field) (st st' : ResolveState),
      goFields add1 fs st = some st' → Ext st st' := by
  intro fs
  induction fs with
  | nil =>
      intro st st' h
      rw [goFields_nil, Option.some.injEq] at h
      subst h
      exact ext_rfl
  | cons f fs ih =>
      intro st st' h
      cases hr : f.references with
      | none =>
          rw [goFields_cons_noref hr] at h
          exact ih st st' h
      | some r =>
          rw [goFields_cons_ref hr] at h
          by_cases hmem : r.table ∈ st.added
          · rw [if_pos hmem] at h
            exact ih st st' h
          · rw [if_neg hmem] at h
            cases ha : add1 st r.table with
            | none => rw [ha] at h; cases h
            | some st1 =>
                rw [ha] at h
                exact ext_trans (H st r.table st1 ha) (ih st1 st' h)

theorem addTable_ext :
    ∀ (fuel : Nat) (st : ResolveState) (name : String) (st' : ResolveState),
      addTable fuel st name = some st' → Ext st st' := by
  intro fuel
  induction fuel with
  | zero => intro st name st' h; rw [addTable_zero] at h; cases h
  | succ fuel ih =>
      intro st name st' h
      rw [addTable_succ] at h
      by_cases hmem : name ∈ st.added
      · rw [if_pos hmem, Option.some.injEq] at h
        subst h
        exact ext_rfl
      · rw [if_neg hmem] at h
        cases hl : getTableByName name with
        | none =>
            rw [hl, Option.some.injEq] at h
            subst h
            exact ext_rfl
        | some table =>
            simp only [hl] at h
            cases hg : goFields (addTable fuel) table.fields st with
            | none => simp only [hg] at h; cases h
            | some st2 =>
                simp only [hg, Option.some.injEq] at h
                subst h
                refine ext_trans (goFields_ext ih table.fields st st2 hg) ?_
                exact ⟨fun x hx => mem_setAdd.mpr (Or.inr hx), [table], rfl⟩

theorem goFields_reach {add1}
    (H : ∀ st n st', add1 st n = some st' →
      ∀ x ∈ st'.added, x ∈ st.added ∨ Reach n x) :
    ∀ (fs : List Field) (st st' : ResolveState),
      goFields add1 fs st = some st' →
      ∀ x ∈ st'.added, x ∈ st.added ∨
        ∃ f ∈ fs, ∃ r, f.references = some r ∧ Reach r.table x := by
  intro fs
  induction fs with
  | nil =>
      intro st st' h x hx
      rw [goFields_nil, Option.some.injEq] at h
      subst h
      exact Or.inl hx
  | cons f fs ih =>
      intro st st' h x hx
      cases hr : f.references with
      | none =>
          rw [goFields_cons_noref hr] at h
          rcases ih st st' h x hx with h1 | ⟨g, hg, r, hgr, hre⟩
          · exact Or.inl h1
          · exact Or.inr ⟨g, List.mem_cons_of_mem f hg, r, hgr, hre⟩
      | some r =>
          rw [goFields_cons_ref hr] at h
          by_cases hmem : r.table ∈ st.added
          · rw [if_pos hmem] at h
            rcases ih st st' h x hx with h1 | ⟨g, hg, r2, hgr, hre⟩
            · exact Or.inl h1
            · exact Or.inr ⟨g, List.mem_cons_of_mem f hg, r2, hgr, hre⟩
          · rw [if_neg hmem] at h
            cases ha : add1 st r.table with
            | none => rw [ha] at h; cases h
            | some st1 =>
                rw [ha] at h
                rcases ih st1 st' h x hx with h1 | ⟨g, hg, r2, hgr, hre⟩
                · rcases H st r.table st1 ha x h1 with h2 | h2
                  · exact Or.inl h2
                  · exact Or.inr ⟨f, List.mem_cons_self f fs, r, hr, h2⟩
                · exact Or.inr ⟨g, List.mem_cons_of_mem f hg, r2, hgr, hre⟩

theorem addTable_reach :
    ∀ (fuel : Nat) (st : ResolveState) (name : String) (st' : ResolveState),
      addTable fuel st name = some st' →
      ∀ x ∈ st'.added, x ∈ st.added ∨ Reach name x := by
  intro fuel
  induction fuel with
  | zero => intro st name st' h; rw [addTable_zero] at h; cases h
  | succ fuel ih =>
      intro st name st' h x hx
      rw [addTable_succ] at h
      by_cases hmem : name ∈ st.added
      · rw [if_pos hmem, Option.some.injEq] at h
        subst h
        exact Or.inl hx
      · rw [if_neg hmem] at h
        cases hl : getTableByName name with
        | none =>
            rw [hl, Option.some.injEq] at h
            subst h
            exact Or.inl hx
        | some table =>
            simp only [hl] at h
            cases hg : goFields (addTable fuel) table.fields st with
            | none => simp only [hg] at h; cases h
            | some st2 =>
                simp only [hg, Option.some.injEq] at h
                subst h
                rcases mem_setAdd.mp hx with rfl | hx2
                · exact Or.inr Relation.ReflTransGen.refl
                · rcases goFields_reach ih table.fields st st2 hg x hx2 with
                    h1 | ⟨f, hf, r, hfr, hre⟩
                  · exact Or.inl h1
                  · refine Or.inr (Relation.ReflTransGen.head ?_ hre)
                    exact ⟨table, hl, mem_refTargets.mpr ⟨f, hf, r, hfr, rfl⟩⟩

theorem addTable_known_mem {fuel : Nat} {st : ResolveState} {name : String}
    {st' : ResolveState} (h : addTable fuel st name = some st')
    (hk : (getTableByName name).isSome) : name ∈ st'.added := by
  cases fuel with
  | zero => rw [addTable_zero] at h; cases h
  | succ fuel =>
      rw [addTable_succ] at h
      by_cases hmem : name ∈ st.added
      · rw [if_pos hmem, Option.some.injEq] at h
        subst h
        exact hmem
      · rw [if_neg hmem] at h
        cases hl : getTableByName name with
        | none => rw [hl] at hk; cases hk
        | some table =>
            simp only [hl] at h
            cases hg : goFields (addTable fuel) table.fields st with
            | none => simp only [hg] at h; cases h
            | some st2 =>
                simp only [hg, Option.some.injEq] at h
                subst h
                exact mem_setAdd.mpr (Or.inl rfl)

theorem addTable_preserves_nocomments {fuel : Nat} {st st' : ResolveState}
    {n : String} (h : addTable fuel st n = some st') (hn : n ≠ "comments")
    (hc : "comments" ∉ st.added) : "comments" ∉ st'.added := by
  intro hmem
  rcases addTable_reach fuel st n st' h "comments" hmem with h1 | h1
  · exact hc h1
  · exact hn (reach_comments h1)

/-! ### The resolver does not terminate on the self-referential table -/

theorem addTable_comments :
    ∀ (fuel : Nat) (st : ResolveState), "comments" ∉ st.added →
      addTable fuel st "comments" = none := by
  intro fuel
  induction fuel with
  | zero => intro st _; rfl
  | succ fuel ih =>
      intro st h
      have hl : getTableByName "comments" = some commentTable := rfl
      suffices hgo :
          goFields (addTable fuel) commentTable.fields st = none by
        rw [addTable_succ, if_neg h]
        simp only [hl, hgo]
      simp only [commentTable, goFields]
      by_cases hp : "posts" ∈ st.added
      · simp only [if_pos hp]
        by_cases hu : "users" ∈ st.added
        · simp only [if_pos hu, if_neg h, ih st h]
        · cases hq : addTable fuel st "users" with
          | none => simp only [if_neg hu, hq]
          | some st1 =>
              have h1 : "comments" ∉ st1.added :=
                addTable_preserves_nocomments hq (by decide) h
              simp only [if_neg hu, hq, if_neg h1, ih st1 h1]
      · cases hq : addTable fuel st "posts" with
        | none => simp only [if_neg hp, hq]
        | some st1 =>
            have h1 : "comments" ∉ st1.added :=
              addTable_preserves_nocomments hq (by decide) h
            simp only [if_neg hp, hq]
            by_cases hu : "users" ∈ st1.added
            · simp only [if_pos hu, if_neg h1, ih st1 h1]
            · cases hq2 : addTable fuel st1 "users" with
              | none => simp only [if_neg hu, hq2]
              | some st2 =>
                  have h2 : "comments" ∉ st2.added :=
                    addTable_preserves_nocomments hq2 (by decide) h1
                  simp only [if_neg hu, hq2, if_neg h2, ih st2 h2]

/-! ### Preservation of the resolver invariant -/

theorem goFields_targets {add1}
    (Hext : ∀ st n st', add1 st n = some st' → Ext st st')
    (Hknown : ∀ st n st', add1 st n = some st' →
      (getTableByName n).isSome → n ∈ st'.added) :
    ∀ (fs : List Field) (st st' : ResolveState),
      goFields add1 fs st = some st' →
      ∀ f ∈ fs, ∀ r, f.references = some r →
        (getTableByName r.table).isSome → r.table ∈ st'.added := by
  intro fs
  induction fs with
  | nil => intro st st' h f hf; cases hf
  | cons f fs ih =>
      intro st st' h g hg r hgr hk
      rcases List.mem_cons.mp hg with rfl | hg2
      · rw [goFields_cons_ref hgr] at h
        by_cases hmem : r.table ∈ st.added
        · rw [if_pos hmem] at h
          exact (goFields_ext Hext fs st st' h).1 r.table hmem
        · rw [if_neg hmem] at h
          cases ha : add1 st r.table with
          | none => rw [ha] at h; cases h
          | some st1 =>
              rw [ha] at h
              exact (goFields_ext Hext fs st1 st' h).1 r.table
                (Hknown st r.table st1 ha hk)
      · cases hr : f.references with
        | none =>
            rw [goFields_cons_noref hr] at h
            exact ih st st' h g hg2 r hgr hk
        | some r2 =>
            rw [goFields_cons_ref hr] at h
            by_cases hmem : r2.table ∈ st.added
            · rw [if_pos hmem] at h
              exact ih st st' h g hg2 r hgr hk
            · rw [if_neg hmem] at h
              cases ha : add1 st r2.table with
              | none => rw [ha] at h; cases h
              | some st1 =>
                  rw [ha] at h
                  exact ih st1 st' h g hg2 r hgr hk

theorem goFields_inv {add1}
    (Hinv : ∀ st n st', add1 st n = some st' → Inv st → Inv st') :
    ∀ (fs : List Field) (st st' : ResolveState),
      goFields add1 fs st = some st' → Inv st → Inv st' := by
  intro fs
  induction fs with
  | nil =>
      intro st st' h hi
      rw [goFields_nil, Option.some.injEq] at h
      subst h
      exact hi
  | cons f fs ih =>
      intro st st' h hi
      cases hr : f.references with
      | none =>
          rw [goFields_cons_noref hr] at h
          exact ih st st' h hi
      | some r =>
          rw [goFields_cons_ref hr] at h
          by_cases hmem : r.table ∈ st.added
          · rw [if_pos hmem] at h
            exact ih st st' h hi
          · rw [if_neg hmem] at h
            cases ha : add1 st r.table with
            | none => rw [ha] at h; cases h
            | some st1 =>
                rw [ha] at h
                exact ih st1 st' h (Hinv st r.table st1 ha hi)

theorem addTable_inv :
    ∀ (fuel : Nat) (st : ResolveState) (name : String) (st' : ResolveState),
      addTable fuel st name = some st' → Inv st → Inv st' := by
  intro fuel
  induction fuel with
  | zero => intro st name st' h; rw [addTable_zero] at h; cases h
  | succ fuel ih =>
      intro st name st' h hinv
      have h0 := h
      rw [addTable_succ] at h
      by_cases hmem : name ∈ st.added
      · rw [if_pos hmem, Option.some.injEq] at h
        subst h
        exact hinv
      · rw [if_neg hmem] at h
        cases hl : getTableByName name with
        | none =>
            simp only [hl, Option.some.injEq] at h
            subst h
            exact hinv
        | some table =>
            simp only [hl] at h
            cases hg : goFields (addTable fuel) table.fields st with
            | none => simp only [hg] at h; cases h
            | some st2 =>
                simp only [hg, Option.some.injEq] at h
                subst h
                have hinv2 : Inv st2 := goFields_inv ih table.fields st st2 hg hinv
                have htmem : table ∈ allTables := lookup_mem hl
                have htname : table.name = name := lookup_name hl
                have hnc : name ≠ "comments" := by
                  intro hn
                  subst hn
                  rw [addTable_comments (fuel + 1) st hinv.nocomments] at h0
                  cases h0
                have hnm : name ∉ st2.added := by
                  intro hmem2
                  rcases goFields_reach (addTable_reach fuel) table.fields st st2
                      hg name hmem2 with h1 | ⟨f, hf, r, hfr, hre⟩
                  · exact hmem h1
                  · have hedge : edge name r.table :=
                      ⟨table, hl, mem_refTargets.mpr ⟨f, hf, r, hfr, rfl⟩⟩
                    exact hnc (cycle_comments (Relation.TransGen.head' hedge hre))
                have htarg : ∀ b ∈ refTargets table, b ∈ st2.added := by
                  intro b hb
                  rcases mem_refTargets.mp hb with ⟨f, hf, r, hfr, rfl⟩
                  exact goFields_targets (addTable_ext fuel)
                    (fun st n st' hh hk => addTable_known_mem hh hk)
                    table.fields st st2 hg f hf r hfr
                    (targets_known table htmem r.table hb)
                have hnames : name ∉ names st2.result :=
                  fun hx => hnm ((hinv2.corr name).mpr hx)
                constructor
                · intro x
                  show x ∈ setAdd st2.added name ↔ x ∈ names (st2.result ++ [table])
                  rw [mem_setAdd]
                  simp only [names, List.map_append, List.map_cons, List.map_nil,
                    List.mem_append, List.mem_singleton, htname]
                  constructor
                  · rintro (rfl | hx2)
                    · exact Or.inr rfl
                    · exact Or.inl ((hinv2.corr x).mp hx2)
                  · rintro (hx2 | rfl)
                    · exact Or.inr ((hinv2.corr x).mpr hx2)
                    · exact Or.inl rfl
                · show (names (st2.result ++ [table])).Nodup
                  simp only [names, List.map_append, List.map_cons, List.map_nil]
                  rw [List.nodup_append]
                  refine ⟨hinv2.nodup, List.nodup_singleton _, ?_⟩
                  intro a ha hb
                  simp only [List.mem_singleton] at hb
                  subst hb
                  rw [htname] at ha
                  exact hnames ha
                · intro t ht
                  rcases List.mem_append.mp ht with ht1 | ht2
                  · exact hinv2.lookups t ht1
                  · rw [List.mem_singleton] at ht2
                    subst ht2
                    rw [htname]
                    exact hl
                · intro x hx b hb
                  rcases mem_setAdd.mp hx with rfl | hx2
                  · obtain ⟨t', hl', hbt⟩ := hb
                    rw [hl, Option.some.injEq] at hl'
                    subst hl'
                    exact mem_setAdd.mpr (Or.inr (htarg b hbt))
                  · exact mem_setAdd.mpr (Or.inr (hinv2.closed x hx2 b hb))
                · show OrderedRev ((st2.result ++ [table]).reverse)
                  rw [List.reverse_append]
                  simp only [List.reverse_singleton, List.singleton_append]
                  refine ⟨?_, hinv2.ordered⟩
                  intro b hb _
                  show b ∈ names st2.result.reverse
                  simp only [names, List.map_reverse, List.mem_reverse]
                  exact (hinv2.corr b).mp (htarg b hb)
                · intro hx
                  rcases mem_setAdd.mp hx with h1 | h1
                  · exact hnc h1.symm
                  · exact hinv2.nocomments h1

/-! ### The request-level fold -/

theorem inv_init : Inv (ResolveState.mk [] []) := by
  constructor
  · intro x; simp [names]
  · simp [names]
  · intro t ht; cases ht
  · intro x hx; cases hx
  · exact trivial
  · intro hx; cases hx

theorem fold_ext :
    ∀ (R : List String) (fuel : Nat) (st stf : ResolveState),
      R.foldlM (fun st n => addTable fuel st n) st = some stf → Ext st stf := by
  intro R
  induction R with
  | nil =>
      intro fuel st stf h
      have h' : some st = some stf := h
      rw [Option.some.injEq] at h'
      subst h'
      exact ext_rfl
  | cons n R ih =>
      intro fuel st stf h
      rw [List.foldlM_cons] at h
      cases ha : addTable fuel st n with
      | none => rw [ha] at h; cases h
      | some st1 =>
          rw [ha] at h
          exact ext_trans (addTable_ext fuel st n st1 ha) (ih fuel st1 stf h)

theorem fold_inv :
    ∀ (R : List String) (fuel : Nat) (st stf : ResolveState),
      R.foldlM (fun st n => addTable fuel st n) st = some stf →
      Inv st → Inv stf := by
  intro R
  induction R with
  | nil =>
      intro fuel st stf h hi
      have h' : some st = some stf := h
      rw [Option.some.injEq] at h'
      subst h'
      exact hi
  | cons n R ih =>
      intro fuel st stf h hi
      rw [List.foldlM_cons] at h
      cases ha : addTable fuel st n with
      | none => rw [ha] at h; cases h
      | some st1 =>
          rw [ha] at h
          exact ih fuel st1 stf h (addTable_inv fuel st n st1 ha hi)

theorem fold_reach :
    ∀ (R : List String) (fuel : Nat) (st stf : ResolveState),
      R.foldlM (fun st n => addTable fuel st n) st = some stf →
      ∀ x ∈ stf.added, x ∈ st.added ∨ ∃ n ∈ R, Reach n x := by
  intro R
  induction R with
  | nil =>
      intro fuel st stf h x hx
      have h' : some st = some stf := h
      rw [Option.some.injEq] at h'
      subst h'
      exact Or.inl hx
  | cons n R ih =>
      intro fuel st stf h x hx
      rw [List.foldlM_cons] at h
      cases ha : addTable fuel st n with
      | none => rw [ha] at h; cases h
      | some st1 =>
          rw [ha] at h
          rcases ih fuel st1 stf h x hx with h1 | ⟨m, hm, hre⟩
          · rcases addTable_reach fuel st n st1 ha x h1 with h2 | h2
            · exact Or.inl h2
            · exact Or.inr ⟨n, List.mem_cons_self n R, h2⟩
          · exact Or.inr ⟨m, List.mem_cons_of_mem n hm, hre⟩

theorem fold_known_mem :
    ∀ (R : List String) (fuel : Nat) (st stf : ResolveState),
      R.foldlM (fun st n => addTable fuel st n) st = some stf →
      ∀ n ∈ R, (getTableByName n).isSome → n ∈ stf.added := by
  intro R
  induction R with
  | nil => intro fuel st stf h n hn; cases hn
  | cons n R ih =>
      intro fuel st stf h m hm hk
      rw [List.foldlM_cons] at h
      cases ha : addTable fuel st n with
      | none => rw [ha] at h; cases h
      | some st1 =>
          rw [ha] at h
          rcases List.mem_cons.mp hm with rfl | hm2
          · exact (fold_ext R fuel st1 stf h).1 m
              (addTable_known_mem ha hk)
          · exact ih fuel st1 stf h m hm2 hk

theorem resolve_state {fuel : Nat} {R : List String}
    {out : List TableDefinition}
    (h : getTablesWithDependencies fuel R = some out) :
    ∃ stf, R.foldlM (fun st n => addTable fuel st n)
        (ResolveState.mk [] []) = some stf ∧
      stf.result = out ∧ Inv stf := by
  unfold getTablesWithDependencies at h
  cases hf : R.foldlM (fun st n => addTable fuel st n)
      (ResolveState.mk [] []) with
  | none => rw [hf] at h; cases h
  | some stf =>
      rw [hf] at h
      simp only [Option.map, Option.some.injEq] at h
      exact ⟨stf, rfl, h, fold_inv R fuel _ stf hf inv_init⟩

theorem fold_unknown (fuel : Nat) :
    ∀ (R : List String), (∀ n ∈ R, getTableByName n = none) →
      ∀ st, R.foldlM (fun st n => addTable (fuel + 1) st n) st = some st := by
  intro R
  induction R with
  | nil => intro _ st; rfl
  | cons n R ih =>
      intro hR st
      rw [List.foldlM_cons]
      have h1 : addTable (fuel + 1) st n = some st := by
        by_cases hmem : n ∈ st.added
        · rw [addTable_succ, if_pos hmem]
        · simp only [addTable_succ, if_neg hmem,
            hR n (List.mem_cons_self n R)]
      rw [h1]
      exact ih (fun m hm => hR m (List.mem_cons_of_mem n hm)) st

/-! ### From the right-to-left ordering invariant to positions -/

theorem orderedRev_suffix :
    ∀ (a b : List TableDefinition), OrderedRev (a ++ b) → OrderedRev b := by
  intro a
  induction a with
  | nil => intro b h; exact h
  | cons t a ih => intro b h; exact ih b h.2

theorem ordered_take {l : List TableDefinition} (h : OrderedRev l.reverse)
    (i : Nat) (hi : i < l.length) :
    ∀ b ∈ refTargets (l.get ⟨i, hi⟩), (getTableByName b).isSome →
      b ∈ names (l.take i) := by
  intro b hb hk
  have hdecomp : l = l.take i ++ l.get ⟨i, hi⟩ :: l.drop (i + 1) := by
    conv_lhs => rw [← List.take_append_drop i l]
    rw [List.drop_eq_getElem_cons hi]
    rfl
  have e : l.reverse =
      (l.drop (i + 1)).reverse ++ (l.get ⟨i, hi⟩ :: (l.take i).reverse) := by
    conv_lhs => rw [hdecomp]
    rw [List.reverse_append, List.reverse_cons, List.append_assoc,
      List.singleton_append]
  rw [e] at h
  have h2 := (orderedRev_suffix _ _ h).1 b hb hk
  simp only [names, List.map_reverse, List.mem_reverse] at h2
  exact h2

theorem mem_names_take {l : List TableDefinition} {b : String} {i : Nat}
    (hb : b ∈ names (l.take i)) :
    ∃ j, ∃ hj : j < l.length, j < i ∧ (l.get ⟨j, hj⟩).name = b := by
  simp only [names, List.mem_map] at hb
  obtain ⟨t, ht, rfl⟩ := hb
  obtain ⟨k, hk, hkt⟩ := List.mem_iff_getElem.mp ht
  have hk2 : k < l.length ∧ k < i := by
    have := hk
    rw [List.length_take] at this
    omega
  refine ⟨k, hk2.1, hk2.2, ?_⟩
  rw [← hkt, List.getElem_take]
  rfl

theorem names_index_inj {l : List TableDefinition}
    (hnd : (names l).Nodup) {i j : Nat} (hi : i < l.length)
    (hj : j < l.length)
    (heq : (l.get ⟨i, hi⟩).name = (l.get ⟨j, hj⟩).name) : i = j := by
  have hi' : i < (names l).length := by simpa [names] using hi
  have hj' : j < (names l).length := by simpa [names] using hj
  have h2 : (names l).get ⟨i, hi'⟩ = (names l).get ⟨j, hj'⟩ := by
    simp only [names, List.get_eq_getElem, List.getElem_map]
    exact heq
  have := List.Nodup.get_inj_iff hnd |>.mp h2
  exact congrArg Fin.val this

/-! ### Closure of the visited set under reachability -/

theorem closed_reach {st : ResolveState}
    (hc : ∀ x ∈ st.added, ∀ b, edge x b → b ∈ st.added) {n m : String}
    (hre : Reach n m) : n ∈ st.added → m ∈ st.added := by
  induction hre using Relation.ReflTransGen.head_induction_on with
  | refl => exact id
  | head h' _ ih => exact fun ha => ih (hc _ ha _ h')

/-! ### Re-resolving an already-resolved sequence -/

theorem goFields_no_calls {add1} :
    ∀ (fs : List Field) (st : ResolveState),
      (∀ f ∈ fs, ∀ r, f.references = some r → r.table ∈ st.added) →
      goFields add1 fs st = some st := by
  intro fs
  induction fs with
  | nil => intro st _; rfl
  | cons f fs ih =>
      intro st hf
      cases hr : f.references with
      | none =>
          rw [goFields_cons_noref hr]
          exact ih st (fun g hg => hf g (List.mem_cons_of_mem f hg))
      | some r =>
          rw [goFields_cons_ref hr,
            if_pos (hf f (List.mem_cons_self f fs) r hr)]
          exact ih st (fun g hg => hf g (List.mem_cons_of_mem f hg))

theorem refold (fuel : Nat) :
    ∀ (rest done : List TableDefinition) (added : List String),
      (∀ x, x ∈ added ↔ x ∈ names done) →
      (names (done ++ rest)).Nodup →
      (∀ t ∈ rest, getTableByName t.name = some t) →
      OrderedRev ((done ++ rest).reverse) →
      (∀ t ∈ rest, ∀ b ∈ refTargets t, (getTableByName b).isSome) →
      ∃ added', (names rest).foldlM (fun st n => addTable (fuel + 1) st n)
          (ResolveState.mk done added) =
        some (ResolveState.mk (done ++ rest) added') := by
  intro rest
  induction rest with
  | nil =>
      intro done added hcorr hnd hlk hord hkn
      exact ⟨added, by simp [names]⟩
  | cons t rest ih =>
      intro done added hcorr hnd hlk hord hkn
      have hndflat : (names done ++ t.name :: names rest).Nodup := by
        have e2 : names (done ++ t :: rest) =
            names done ++ t.name :: names rest := by
          simp [names]
        rw [e2] at hnd
        exact hnd
      have hmem : t.name ∉ added := by
        intro hx
        have h1 : t.name ∈ names done := (hcorr _).mp hx
        have hdisj := (List.nodup_append.mp hndflat).2.2
        exact hdisj h1 (List.mem_cons_self _ _)
      have hlkt : getTableByName t.name = some t :=
        hlk t (List.mem_cons_self t rest)
      have e : (done ++ t :: rest).reverse =
          rest.reverse ++ (t :: done.reverse) := by
        rw [show done ++ t :: rest = (done ++ [t]) ++ rest from by simp,
          List.reverse_append, List.reverse_append, List.reverse_singleton,
          List.singleton_append]
      have hdeps : ∀ b ∈ refTargets t, b ∈ added := by
        intro b hb
        have hkb := hkn t (List.mem_cons_self t rest) b hb
        have hord2 := hord
        rw [e] at hord2
        have h3 := (orderedRev_suffix _ _ hord2).1 b hb hkb
        simp only [names, List.map_reverse, List.mem_reverse] at h3
        exact (hcorr b).mpr h3
      have hstep : addTable (fuel + 1) (ResolveState.mk done added) t.name =
          some (ResolveState.mk (done ++ [t]) (setAdd added t.name)) := by
        rw [addTable_succ, if_neg hmem]
        simp only [hlkt]
        rw [goFields_no_calls t.fields _
          (fun f hf r hr => hdeps r.table (mem_refTargets.mpr ⟨f, hf, r, hr, rfl⟩))]
      have hcorr' : ∀ x, x ∈ setAdd added t.name ↔ x ∈ names (done ++ [t]) := by
        intro x
        rw [mem_setAdd]
        simp only [names, List.map_append, List.map_cons, List.map_nil,
          List.mem_append, List.mem_singleton]
        constructor
        · rintro (rfl | hx2)
          · exact Or.inr rfl
          · exact Or.inl ((hcorr x).mp hx2)
        · rintro (hx2 | rfl)
          · exact Or.inr ((hcorr x).mpr hx2)
          · exact Or.inl rfl
      have hassoc : (done ++ [t]) ++ rest = done ++ t :: rest := by simp
      obtain ⟨added', hfold⟩ := ih (done ++ [t]) (setAdd added t.name) hcorr'
        (by rw [hassoc]; exact hnd)
        (fun u hu => hlk u (List.mem_cons_of_mem t hu))
        (by rw [hassoc]; exact hord)
        (fun u hu => hkn u (List.mem_cons_of_mem t hu))
      refine ⟨added', ?_⟩
      have hnames : names (t :: rest) = t.name :: names rest := rfl
      rw [hnames, List.foldlM_cons, hstep]
      rw [hassoc] at hfold
      exact hfold

/-! ### Characterisation of the Drizzle import set -/

theorem mem_foldl_setAdd (g : Field → String) :
    ∀ (fs : List Field) (s : List String) (x : String),
      x ∈ fs.foldl (fun s f => setAdd s (g f)) s ↔
        x ∈ s ∨ ∃ f ∈ fs, g f = x := by
  intro fs
  induction fs with
  | nil => intro s x; simp
  | cons f fs ih =>
      intro s x
      rw [List.foldl_cons, ih]
      constructor
      · rintro (h1 | ⟨f', hf', rfl⟩)
        · rcases mem_setAdd.mp h1 with rfl | h2
          · exact Or.inr ⟨f, List.mem_cons_self f fs, rfl⟩
          · exact Or.inl h2
        · exact Or.inr ⟨f', List.mem_cons_of_mem f hf', rfl⟩
      · rintro (h1 | ⟨f', hf', rfl⟩)
        · exact Or.inl (mem_setAdd.mpr (Or.inr h1))
        · rcases List.mem_cons.mp hf' with rfl | h2
          · exact Or.inl (mem_setAdd.mpr (Or.inl rfl))
          · exact Or.inr ⟨f', h2, rfl⟩

theorem mem_tables_fold (g : Field → String) :
    ∀ (tables : List TableDefinition) (s : List String) (x : String),
      x ∈ tables.foldl
          (fun s t => t.fields.foldl (fun s f => setAdd s (g f)) s) s ↔
        x ∈ s ∨ ∃ t ∈ tables, ∃ f ∈ t.fields, g f = x := by
  intro tables
  induction tables with
  | nil => intro s x; simp
  | cons t tables ih =>
      intro s x
      rw [List.foldl_cons, ih]
      constructor
      · rintro (h1 | ⟨t', ht', f', hf', rfl⟩)
        · rcases (mem_foldl_setAdd g t.fields s x).mp h1 with h2 | ⟨f', hf', rfl⟩
          · exact Or.inl h2
          · exact Or.inr ⟨t, List.mem_cons_self t tables, f', hf', rfl⟩
        · exact Or.inr ⟨t', List.mem_cons_of_mem t ht', f', hf', rfl⟩
      · rintro (h1 | ⟨t', ht', f', hf', rfl⟩)
        · exact Or.inl ((mem_foldl_setAdd g t.fields s _).mpr (Or.inl h1))
        · rcases List.mem_cons.mp ht' with rfl | h2
          · exact Or.inl
              ((mem_foldl_setAdd g t'.fields s _).mpr (Or.inr ⟨f', hf', rfl⟩))
          · exact Or.inr ⟨t', h2, f', hf', rfl⟩

theorem nodup_setAdd {l : List String} {x : String} (h : l.Nodup) :
    (setAdd l x).Nodup := by
  unfold setAdd
  split
  · exact h
  · rename_i hx
    rw [List.nodup_append]
    exact ⟨h, List.nodup_singleton x,
      fun a ha hb => hx (List.mem_singleton.mp hb ▸ ha)⟩

theorem nodup_foldl_setAdd (g : Field → String) :
    ∀ (fs : List Field) (s : List String), s.Nodup →
      (fs.foldl (fun s f => setAdd s (g f)) s).Nodup := by
  intro fs
  induction fs with
  | nil => intro s h; exact h
  | cons f fs ih => intro s h; exact ih _ (nodup_setAdd h)

theorem nodup_drizzleImportTypes (tables : List TableDefinition) :
    (drizzleImportTypes tables).Nodup := by
  unfold drizzleImportTypes
  have hgen : ∀ (ts : List TableDefinition) (s : List String), s.Nodup →
      (ts.foldl
        (fun s t => t.fields.foldl
          (fun s f => setAdd s (drizzleBaseType f)) s) s).Nodup := by
    intro ts
    induction ts with
    | nil => intro s h; exact h
    | cons t ts ih =>
        intro s h
        exact ih _ (nodup_foldl_setAdd drizzleBaseType t.fields s h)
  exact hgen tables ["text", "timestamp"] (by decide)

/-! ### Claim theorems -/

/-- C1 (code bug): the spec's cycle-safety claim describes the clear intent,
but the code marks a table visited only *after* recursing into its
dependencies, so the in-progress `comments` table is absent from the visited
set when its self-referential `parentId` foreign key is followed, and
`getTablesWithDependencies(["comments"])` recurses forever instead of
terminating with `comments` appearing once: at every recursion-depth bound
the bounded model returns `none` (depth exhausted), although `comments` is a
catalog table with a self-referential foreign key. -/
theorem c1_selfref_resolution_diverges :
    (∀ fuel, getTablesWithDependencies fuel ["comments"] = none) ∧
      commentTable ∈ allTables ∧ "comments" ∈ refTargets commentTable := by
  refine ⟨?_, by decide, by decide⟩
  intro fuel
  unfold getTablesWithDependencies
  rw [List.foldlM_cons,
    addTable_comments fuel (ResolveState.mk [] []) (by intro h; cases h)]
  rfl

/-- C2 counterexample: requesting the unknown name `"widgets"` does not fail
with any error — the name is absent from the catalog, is silently skipped,
and the resolver returns the empty table sequence. -/
theorem c2_widgets_counterexample :
    getTableByName "widgets" = none ∧
      getTablesWithDependencies 1 ["widgets"] = some [] :=
  ⟨rfl, rfl⟩

/-- C2 amended: the resolver has no failure outcome for unknown table names;
any requested list all of whose names are absent from the catalog resolves
to the empty sequence (each unknown name is skipped by the
`if (!table) return;` guard rather than reported). -/
theorem c2_unknown_names_skipped (R : List String) (fuel : Nat)
    (hfuel : 1 ≤ fuel) (hR : ∀ n ∈ R, getTableByName n = none) :
    getTablesWithDependencies fuel R = some [] := by
  obtain ⟨k, rfl⟩ : ∃ k, fuel = k + 1 := ⟨fuel - 1, by omega⟩
  unfold getTablesWithDependencies
  rw [fold_unknown k R hR (ResolveState.mk [] [])]
  rfl

/-- C2 witness: the amended statement applied to the concrete request
`["widgets"]`. -/
theorem c2_widgets_witness :
    getTablesWithDependencies 2 ["widgets"] = some [] :=
  c2_unknown_names_skipped ["widgets"] 2 (by omega) (by decide)

/-- C3 counterexample: the import set is seeded with `"text"` and
`"timestamp"` before any field is scanned, so for the empty table list —
which uses no primitive type at all — the emitted Drizzle header still
imports both names; the imported set is therefore not exactly the used set. -/
theorem c3_seeded_imports_counterexample :
    drizzleImportTypes [] = ["text", "timestamp"] ∧
      drizzleImportLine [] Database.postgresql =
        "import \x7b pgTable, text, timestamp \x7d from \x27drizzle-orm/pg-core\x27" ∧
      ¬∃ t ∈ ([] : List TableDefinition), ∃ f ∈ t.fields,
        drizzleBaseType f = "text" :=
  ⟨rfl, rfl, by simp⟩

/-- C3 amended: the set of names in the Drizzle import header is exactly the
seeded pair `"text"`, `"timestamp"` together with the base primitive types
actually used by some field of some table in the list, with no duplicates —
i.e. the header never misses a used name, and over-imports exactly the
unused seeds. -/
theorem c3_imports_characterization (tables : List TableDefinition)
    (x : String) :
    (x ∈ drizzleImportTypes tables ↔
      x = "text" ∨ x = "timestamp" ∨
        ∃ t ∈ tables, ∃ f ∈ t.fields, drizzleBaseType f = x) ∧
      (drizzleImportTypes tables).Nodup := by
  refine ⟨?_, nodup_drizzleImportTypes tables⟩
  unfold drizzleImportTypes
  rw [mem_tables_fold drizzleBaseType tables ["text", "timestamp"] x]
  simp [or_assoc]

/-- C4: whenever the resolver terminates, each table of the resolved
sequence appears exactly once (the name sequence is duplicate-free), and for
every foreign key from the table at position `i` to a different table at
position `j` of the sequence, `j` strictly precedes `i`. -/
theorem c4_ordering (R : List String) (fuel : Nat)
    (out : List TableDefinition)
    (h : getTablesWithDependencies fuel R = some out) :
    (names out).Nodup ∧
      ∀ (i j : Nat) (hi : i < out.length) (hj : j < out.length),
        ∀ f ∈ (out.get ⟨i, hi⟩).fields, ∀ r, f.references = some r →
          r.table = (out.get ⟨j, hj⟩).name →
          (out.get ⟨i, hi⟩).name ≠ (out.get ⟨j, hj⟩).name → j < i := by
  obtain ⟨stf, hfold, hres, hinv⟩ := resolve_state h
  subst hres
  refine ⟨hinv.nodup, ?_⟩
  intro i j hi hj f hf r hfr hrj hne
  have hjmem : stf.result.get ⟨j, hj⟩ ∈ stf.result := List.get_mem _ _ hj
  have hk : (getTableByName r.table).isSome = true := by
    rw [hrj, hinv.lookups _ hjmem]
    rfl
  have hbtake := ordered_take hinv.ordered i hi r.table
    (mem_refTargets.mpr ⟨f, hf, r, hfr, rfl⟩) hk
  obtain ⟨j', hj', hj'i, hname⟩ := mem_names_take hbtake
  have : j' = j := names_index_inj hinv.nodup hj' hj (by rw [hname, hrj])
  omega

/-- C4 witness: the ordering theorem applied to the concrete request
`["posts"]`, which resolves to `[users, posts]`. -/
theorem c4_ordering_witness : (names [userTable, postTable]).Nodup :=
  (c4_ordering ["posts"] 3 [userTable, postTable] (by rfl)).1

/-- C5: whenever the resolver terminates, a table is in the resolved
sequence exactly when it is a catalog table whose name is transitively
reachable from one of the requested names along foreign-key targets. -/
theorem c5_closure (R : List String) (fuel : Nat)
    (out : List TableDefinition)
    (h : getTablesWithDependencies fuel R = some out) :
    ∀ T, T ∈ out ↔ (T ∈ allTables ∧ ∃ n ∈ R, Reach n T.name) := by
  obtain ⟨stf, hfold, hres, hinv⟩ := resolve_state h
  subst hres
  intro T
  constructor
  · intro hT
    refine ⟨lookup_mem (hinv.lookups T hT), ?_⟩
    have h1 : T.name ∈ stf.added :=
      (hinv.corr T.name).mpr (List.mem_map_of_mem _ hT)
    rcases fold_reach R fuel _ stf hfold T.name h1 with h2 | h2
    · cases h2
    · exact h2
  · rintro ⟨hTmem, n, hn, hre⟩
    have hk : (getTableByName n).isSome = true := by
      rcases Relation.ReflTransGen.cases_head hre with heq | ⟨c, hedge, _⟩
      · subst heq
        rw [lookup_self T hTmem]
        rfl
      · obtain ⟨t', hl', _⟩ := hedge
        rw [hl']
        rfl
    have hnmem : n ∈ stf.added := fold_known_mem R fuel _ stf hfold n hn hk
    have hTn : T.name ∈ stf.added := closed_reach hinv.closed hre hnmem
    have h3 : T.name ∈ names stf.result := (hinv.corr T.name).mp hTn
    simp only [names, List.mem_map] at h3
    obtain ⟨T', hT', hTname⟩ := h3
    have e1 : getTableByName T'.name = some T' := hinv.lookups T' hT'
    have e2 : getTableByName T.name = some T := lookup_self T hTmem
    rw [hTname, e2, Option.some.injEq] at e1
    rw [e1]
    exact hT'

/-- C5 witness: the closure theorem applied to the concrete request
`["posts"]` at the table `users`. -/
theorem c5_closure_witness :
    userTable ∈ [userTable, postTable] ↔
      (userTable ∈ allTables ∧ ∃ n ∈ ["posts"], Reach n userTable.name) :=
  c5_closure ["posts"] 3 [userTable, postTable] (by rfl) userTable

/-- C6: resolution is idempotent — whenever the resolver terminates on `R`,
feeding the resolved sequence's name list back in reproduces the very same
resolved sequence (hence the same ordered name sequence). -/
theorem c6_idempotent (R : List String) (fuel : Nat)
    (out : List TableDefinition)
    (h : getTablesWithDependencies fuel R = some out) :
    getTablesWithDependencies fuel (names out) = some out := by
  obtain ⟨stf, hfold, hres, hinv⟩ := resolve_state h
  subst hres
  cases fuel with
  | zero =>
      cases R with
      | nil =>
          have h' : some (ResolveState.mk [] []) = some stf := hfold
          rw [Option.some.injEq] at h'
          rw [← h']
          rfl
      | cons n R =>
          rw [List.foldlM_cons, addTable_zero] at hfold
          cases hfold
  | succ fuel =>
      obtain ⟨added', hfold2⟩ := refold fuel stf.result [] []
        (by intro x; simp [names])
        (by simpa using hinv.nodup)
        hinv.lookups
        (by simpa using hinv.ordered)
        (fun t ht => targets_known t (lookup_mem (hinv.lookups t ht)))
      unfold getTablesWithDependencies
      rw [hfold2]
      simp

/-- C6 witness: idempotence at the concrete request `["posts"]`, whose
resolution is `[users, posts]` with name sequence `["users", "posts"]`. -/
theorem c6_idempotent_witness :
    getTablesWithDependencies 3 (names [userTable, postTable]) =
      some [userTable, postTable] :=
  c6_idempotent ["posts"] 3 [userTable, postTable] (by rfl)

/-- C7: in every backend the not-null/optional rendering follows `required`
and `isPrimaryKey` exactly — Drizzle chains `.notNull()` iff the field is
required and not a primary key (and then the chunk really occurs in the
emitted declaration); Prisma appends its optionality marker `?` iff the
field is neither required nor a primary key; Kysely appends `" | null"`
under the same condition; hence a primary-key field is never rendered
optional or nullable, even when its `required` flag is unset. -/
theorem c7_notnull_rendering (f : Field) (db : Database) :
    (drizzleNotNullPart f = ".notNull()" ↔ (f.required ∧ ¬f.isPrimaryKey)) ∧
    ((f.required ∧ ¬f.isPrimaryKey) →
      ∃ pre post, generateDrizzleField f db = pre ++ ".notNull()" ++ post) ∧
    (prismaOptionalMark f = "?" ↔ (¬f.required ∧ ¬f.isPrimaryKey)) ∧
    (kyselyNullMark f = " | null" ↔ (¬f.required ∧ ¬f.isPrimaryKey)) ∧
    (f.isPrimaryKey → prismaOptionalMark f = "" ∧ kyselyNullMark f = "") := by
  refine ⟨?_, ?_, ?_, ?_, ?_⟩
  · unfold drizzleNotNullPart
    split
    · rename_i hc
      exact iff_of_true rfl hc
    · rename_i hc
      exact iff_of_false (by decide) hc
  · intro h
    refine ⟨drizzleBasePart f ++ drizzlePkPart f,
      drizzleUniquePart f ++ drizzleDefaultPart f ++ drizzlePkUuidPart f ++
        drizzleRefPart f, ?_⟩
    unfold generateDrizzleField drizzleNotNullPart
    rw [if_pos h]
    simp [String.append_assoc]
  · unfold prismaOptionalMark
    split
    · rename_i hc
      exact iff_of_true rfl hc
    · rename_i hc
      exact iff_of_false (by decide) hc
  · unfold kyselyNullMark
    split
    · rename_i hc
      exact iff_of_true rfl hc
    · rename_i hc
      exact iff_of_false (by decide) hc
  · intro hpk
    constructor
    · unfold prismaOptionalMark
      rw [if_neg (fun hc => hc.2 hpk)]
    · unfold kyselyNullMark
      rw [if_neg (fun hc => hc.2 hpk)]

/-- C7 witness: the Drizzle direction at a concrete required non-primary-key
field (the `title` column of `posts`). -/
theorem c7_notnull_witness :
    ∃ pre post,
      generateDrizzleField
        { name := "title", type := FieldType.string, required := true,
          length := some 255 } Database.postgresql =
      pre ++ ".notNull()" ++ post :=
  (c7_notnull_rendering
    { name := "title", type := FieldType.string, required := true,
      length := some 255 } Database.postgresql).2.1 (by decide)

/-- C8 counterexample: the table emitter's Drizzle type mapping takes no
dialect — a uuid (identifier) field maps to the `text` builder under every
dialect and the emitted declaration is identical under sqlite and
postgresql; in particular under sqlite a uuid primary key is emitted as a
text column with a random-UUID default, not as an auto-incrementing integer
primitive as the claim asserts. -/
theorem c8_uuid_counterexample :
    getDrizzleFieldType
        { name := "id", type := FieldType.uuid, isPrimaryKey := true } =
      "text" ∧
    generateDrizzleField
        { name := "id", type := FieldType.uuid, isPrimaryKey := true }
        Database.sqlite =
      generateDrizzleField
        { name := "id", type := FieldType.uuid, isPrimaryKey := true }
        Database.postgresql ∧
    generateDrizzleField
        { name := "id", type := FieldType.uuid, isPrimaryKey := true }
        Database.sqlite =
      "text(\x27id\x27).primaryKey().$defaultFn(() => crypto.randomUUID())" :=
  ⟨rfl, rfl, rfl⟩

/-- C8 amended: in the table emitter (`getDrizzleFieldType` /
`generateDrizzleField`) the identifier mapping is dialect-INdependent — uuid
maps to `text` everywhere and the emitted field ignores the dialect; the
dialect-dependent identifier mapping the spec describes (uuid-like text
under postgresql/mysql, auto-increment integer under sqlite) exists only in
the starter-schema template's id column (`generateSchema`). -/
theorem c8_identifier_mapping (f : Field) (hf : f.type = FieldType.uuid) :
    getDrizzleFieldType f = "text" ∧
    (∀ db1 db2, generateDrizzleField f db1 = generateDrizzleField f db2) ∧
    generateSchemaIdType Database.sqlite =
      "integer(\x27id\x27).primaryKey(\x7b autoIncrement: true \x7d)" ∧
    generateSchemaIdType Database.postgresql =
      "text(\x27id\x27).primaryKey().$defaultFn(() => crypto.randomUUID())" ∧
    generateSchemaIdType Database.mysql =
      generateSchemaIdType Database.postgresql := by
  refine ⟨?_, fun db1 db2 => rfl, rfl, rfl, rfl⟩
  unfold getDrizzleFieldType
  rw [hf]

/-- C8 witness: the amended statement at a concrete uuid field. -/
theorem c8_identifier_witness :
    getDrizzleFieldType { name := "id", type := FieldType.uuid } = "text" :=
  (c8_identifier_mapping { name := "id", type := FieldType.uuid } rfl).1

set_option maxRecDepth 400000 in
/-- C9: the Kysely emitter derives, per table, exactly three named type
declarations from the one field list: every catalog table's block and the
scenario table's block contain exactly three `export type ` declarations;
the scenario artifact as a whole (one table with an auto-increment primary
key and two other fields) contains exactly three under every dialect; the
auto-increment primary key is wrapped `Generated<…>` (what makes the
`Insertable` projection omit it) while the other two fields are not. -/
theorem c9_three_derived_types :
    (∀ t ∈ allTables, countOcc ("export type ") (kyselyTableBlock t) = 3) ∧
    (∀ db, countOcc ("export type ")
      (generateKyselyTables [itemTable] db) = 3) ∧
    kyselyFieldType
        { name := "id", type := FieldType.number, isPrimaryKey := true,
          isAutoIncrement := true } = "Generated<number>" ∧
    kyselyTableBlock itemTable =
      "export interface ItemTable \x7b\n  id: Generated<number>\n  title: string\n  done: boolean | null\n\x7d\n\nexport type Item = Selectable<ItemTable>\nexport type NewItem = Insertable<ItemTable>\nexport type ItemUpdate = Updateable<ItemTable>" := by
  refine ⟨by decide, ?_, rfl, rfl⟩
  intro db
  cases db <;> decide

set_option maxRecDepth 400000 in
/-- C9 witness: the per-table count at the concrete catalog table `users`. -/
theorem c9_derived_types_witness :
    countOcc ("export type ") (kyselyTableBlock userTable) = 3 :=
  c9_three_derived_types.1 userTable (by decide)

/-- C10: in the Drizzle relation pass a many-to-many entry maps to the empty
string — it contributes no declaration text and is silently dropped — while
one-to-many and many-to-one entries each produce a non-empty relation
declaration line. -/
theorem c10_many_to_many_dropped (t : TableDefinition)
    (rel : RelationEntry) :
    (rel.type = RelKind.manyToMany → drizzleRelationLine t rel = "") ∧
    (rel.type = RelKind.oneToMany →
      drizzleRelationLine t rel =
        "    " ++ rel.fieldName ++ ": many(" ++ rel.toTable ++ ")," ∧
      drizzleRelationLine t rel ≠ "") ∧
    (rel.type = RelKind.manyToOne → drizzleRelationLine t rel ≠ "") := by
  refine ⟨?_, ?_, ?_⟩
  · intro h
    simp only [drizzleRelationLine, h]
  · intro h
    have he : drizzleRelationLine t rel =
        "    " ++ rel.fieldName ++ ": many(" ++ rel.toTable ++ ")," := by
      simp only [drizzleRelationLine, h]
    refine ⟨he, ?_⟩
    intro heq
    rw [he] at heq
    have h2 := congrArg String.length heq
    simp only [String.length_append] at h2
    have h3 : ("    " : String).length = 4 := rfl
    have h4 : ("" : String).length = 0 := rfl
    rw [h3, h4] at h2
    omega
  · intro h
    have he : drizzleRelationLine t rel =
        "    " ++ rel.fieldName ++ ": one(" ++ rel.toTable ++ ", \x7b\n" ++
          "      fields: [" ++ t.name ++ "." ++ rel.fieldName ++ "Id],\n" ++
          "      references: [" ++ rel.toTable ++ ".id],\n    \x7d)," := by
      simp only [drizzleRelationLine, h]
    intro heq
    rw [he] at heq
    have h2 := congrArg String.length heq
    simp only [String.length_append] at h2
    have h3 : ("    " : String).length = 4 := rfl
    have h4 : ("" : String).length = 0 := rfl
    rw [h3, h4] at h2
    omega

/-- C10 witness: a concrete many-to-many entry contributes nothing while the
concrete one-to-many entry of `posts` contributes a non-empty line. -/
theorem c10_many_to_many_witness :
    drizzleRelationLine postTable
        (RelationEntry.mk RelKind.manyToMany "tags" "tags") = "" ∧
      drizzleRelationLine postTable
        (RelationEntry.mk RelKind.oneToMany "comments" "comments") ≠ "" :=
  ⟨(c10_many_to_many_dropped postTable
      (RelationEntry.mk RelKind.manyToMany "tags" "tags")).1 rfl,
    ((c10_many_to_many_dropped postTable
      (RelationEntry.mk RelKind.oneToMany "comments" "comments")).2.1 rfl).2⟩

end OrmSetup
